import Mathlib

/-!
# Verification of the sazan-imgkit web pipeline

Shallow embedding of the image-normalization and crop/grid pipeline of
`src/examples/web` (canvas-helper.ts, sazan-helper.ts, CropGridService.ts,
CropSplitService.ts) together with a model of the embedded core entry point
`crop_and_grid_images` (whose Rust implementation is not among the shipped
sources; it is modelled from the specification, see the doc comments below).

Pixel data is modelled as flat lists of RGBA bytes (`List Nat`), matching the
`Uint8ClampedArray` buffers of the source.  The browser 2D-canvas API
(`OffscreenCanvas`, `drawImage`, `getImageData`, `ImageData`) is modelled by
its documented ideal semantics: a fresh canvas is fully transparent,
`drawImage src 0 0` composites the source over it (source-over onto a
transparent destination copies the source verbatim), and `getImageData`
returns the raw RGBA bytes row-major.
-/

namespace Sazan

/-- Model of an `OffscreenCanvas`: dimensions plus raw RGBA bytes, row-major,
four bytes per pixel (as returned by `getImageData`). -/
structure Canvas where
  width : Nat
  height : Nat
  data : List Nat
deriving DecidableEq, Repr

/-- Byte `ch` (0 = R, 1 = G, 2 = B, 3 = A) of pixel `(x, y)` of a canvas. -/
def pixelByte (c : Canvas) (x y ch : Nat) : Nat :=
  c.data.getD ((y * c.width + x) * 4 + ch) 0

/-- Model of the `else` branch of `normalizeImagesToMaxSize`
(canvas-helper.ts lines 36–43): a fresh `OffscreenCanvas(maxW, maxH)` is
allocated (fully transparent), the source canvas is drawn at the origin with
`drawImage(srcCanvas, 0, 0)`, and `getImageData(0, 0, maxW, maxH)` reads the
result back.  Pixels covered by the source are the source's bytes verbatim;
all other pixels stay transparent (all four channels zero). -/
def drawOnBlankData (c : Canvas) (maxW maxH : Nat) : List Nat :=
  (List.range maxH).flatMap fun y =>
    (List.range maxW).flatMap fun x =>
      if x < c.width ∧ y < c.height then
        (List.range 4).map fun ch => pixelByte c x y ch
      else [0, 0, 0, 0]

/-- An element of the image array handed to `normalizeImagesToMaxSize`
(canvas-helper.ts): a name and an optional canvas. -/
structure ImgObj where
  name : String
  canvas : Option Canvas
deriving DecidableEq, Repr

/-- The first loop of `normalizeImagesToMaxSize` (canvas-helper.ts lines
22–28): starting from `maxWidth = 0, maxHeight = 0`, fold over the images and
take `Math.max` with each present canvas's width and height (images without a
canvas are skipped). -/
def computeMaxSize (images : List ImgObj) : Nat × Nat :=
  images.foldl
    (fun m imgObj =>
      match imgObj.canvas with
      | some c => (Nat.max m.1 c.width, Nat.max m.2 c.height)
      | none => m)
    (0, 0)

/-- Result record of `normalizeImagesToMaxSize`:
`{ maxWidth, maxHeight, rgbaImages }`. -/
structure NormalizeResult where
  maxWidth : Nat
  maxHeight : Nat
  rgbaImages : List (List Nat)
deriving DecidableEq, Repr

/-- The body of the second loop of `normalizeImagesToMaxSize` for one canvas:
a canvas already of the maximal size passes through
`getImageData(0, 0, maxW, maxH)`, which yields its bytes verbatim; any other
canvas is redrawn on a fresh transparent canvas of the maximal size. -/
def normalizeOut (maxW maxH : Nat) (c : Canvas) : List Nat :=
  if c.width = maxW ∧ c.height = maxH then c.data
  else drawOnBlankData c maxW maxH

/-- The canvas of an image object (meaningful when the canvas is present). -/
def canvasOf (img : ImgObj) : Canvas :=
  img.canvas.getD ⟨0, 0, []⟩

/-- The second loop of `normalizeImagesToMaxSize` (canvas-helper.ts lines
30–44), building `rgbaImages` in input order.  An image without a canvas
throws `No canvas for image: <name>`. -/
def normalizeLoop (maxW maxH : Nat) : List ImgObj → Except String (List (List Nat))
  | [] => Except.ok []
  | imgObj :: rest =>
    match imgObj.canvas with
    | none => Except.error ("No canvas for image: " ++ imgObj.name)
    | some c =>
      let out := normalizeOut maxW maxH c
      match normalizeLoop maxW maxH rest with
      | Except.ok rs => Except.ok (out :: rs)
      | Except.error e => Except.error e

/-- `normalizeImagesToMaxSize` (canvas-helper.ts lines 21–46): compute the
element-wise maximal size, then normalize every image to that size.  A thrown
JS exception is modelled as `Except.error`. -/
def normalizeImagesToMaxSize (images : List ImgObj) :
    Except String NormalizeResult := do
  let m := computeMaxSize images
  let rgbaImages ← normalizeLoop m.1 m.2 images
  return ⟨m.1, m.2, rgbaImages⟩

/-- `flattenImagesToRgba` (sazan-helper.ts lines 11–21): allocate a buffer of
the summed length and copy each image's bytes at the running offset; modelled
as a left fold appending each array. -/
def flattenImagesToRgba (images : List (List Nat)) : List Nat :=
  images.foldl (fun result arr => result ++ arr) []

/-! ## Model of the embedded core

The Rust crate implementing `crop_and_grid_images` is not among the shipped
sources; only its wasm-bindgen JS binding
(vendor/sazan-wasm/sazan_wasm_bg.js) and its documentation are.  The
definitions below are modelled from the specification: the Cropper contract
(§4.2), the GridComposer contract (§4.3) and the embedded entry point (§6). -/

/-- One RGBA pixel. -/
structure RGBA where
  r : Nat
  g : Nat
  b : Nat
  a : Nat
deriving DecidableEq, Repr

/-- A pixel buffer with its pixels given as a function of coordinates. -/
structure PixBuf where
  width : Nat
  height : Nat
  pix : Nat → Nat → RGBA

/-- A rectangular crop region `{left, top, width, height}`. -/
structure CropRegion where
  left : Nat
  top : Nat
  width : Nat
  height : Nat
deriving DecidableEq, Repr

/-- An output tiling shape `{cols, rows}`. -/
structure GridSpec where
  cols : Nat
  rows : Nat
deriving DecidableEq, Repr

/-- Error taxonomy of the core (spec §7), restricted to the errors reachable
from the embedded entry point. -/
inductive CoreError where
  | invalidBufferLength
  | cropOutOfBounds
  | invalidGridSpec
deriving DecidableEq, Repr

/-- Modelled from the spec: the Cropper (§4.2).  Produces a buffer of the
region's size whose pixel `(x, y)` is the source's pixel
`(left + x, top + y)`. -/
def cropBuf (img : PixBuf) (r : CropRegion) : PixBuf :=
  ⟨r.width, r.height, fun x y => img.pix (r.left + x) (r.top + y)⟩

/-- Modelled from the spec: one step of the GridComposer's placement
algorithm (§4.3).  For index `i`, `col = i mod cols` and `row = i div cols`;
if `row >= rows` the crop is dropped, otherwise it is blitted unscaled into
its cell at pixel offset `(col * cellW, row * cellH)`. -/
def placeCrop (spec : GridSpec) (cellW cellH : Nat) (acc : Nat → Nat → RGBA)
    (i : Nat) (crop : PixBuf) : Nat → Nat → RGBA :=
  let col := i % spec.cols
  let row := i / spec.cols
  if spec.rows ≤ row then acc
  else fun x y =>
    if col * cellW ≤ x ∧ x < col * cellW + cellW ∧
       row * cellH ≤ y ∧ y < row * cellH + cellH then
      crop.pix (x - col * cellW) (y - row * cellH)
    else acc x y

/-- Modelled from the spec: the GridComposer's output pixels (§4.3) — blit
every indexed crop, in order, onto a transparent canvas. -/
def composeGridPix (crops : List PixBuf) (spec : GridSpec) (cellW cellH : Nat) :
    Nat → Nat → RGBA :=
  crops.enum.foldl (fun acc p => placeCrop spec cellW cellH acc p.1 p.2)
    (fun _ _ => ⟨0, 0, 0, 0⟩)

/-- Modelled from the spec: the GridComposer `composeGrid` (§4.3).  Output
canvas size is `(cols * cellW, rows * cellH)`; `cols = 0 ∨ rows = 0` is
`InvalidGridSpecError`. -/
def composeGrid (crops : List PixBuf) (spec : GridSpec) (cellW cellH : Nat) :
    Except CoreError PixBuf :=
  if spec.cols = 0 ∨ spec.rows = 0 then Except.error CoreError.invalidGridSpec
  else Except.ok ⟨spec.cols * cellW, spec.rows * cellH,
                  composeGridPix crops spec cellW cellH⟩

/-- Image `i` of the flattened RGBA buffer (spec §6: the buffer is the
concatenation of all images' pixel data, each of length `w * h * 4`), read
back as a pixel buffer. -/
def bytesToBuf (flat : List Nat) (w h i : Nat) : PixBuf :=
  ⟨w, h, fun x y =>
    ⟨flat.getD (i * (w * h * 4) + (y * w + x) * 4) 0,
     flat.getD (i * (w * h * 4) + (y * w + x) * 4 + 1) 0,
     flat.getD (i * (w * h * 4) + (y * w + x) * 4 + 2) 0,
     flat.getD (i * (w * h * 4) + (y * w + x) * 4 + 3) 0⟩⟩

/-- Serialize a pixel buffer to flat RGBA bytes, row-major. -/
def bufToBytes (b : PixBuf) : List Nat :=
  (List.range b.height).flatMap fun y =>
    (List.range b.width).flatMap fun x =>
      [(b.pix x y).r, (b.pix x y).g, (b.pix x y).b, (b.pix x y).a]

/-- The argument list of a call to the core entry point
`crop_and_grid_images` (vendor/sazan-wasm/sazan_wasm_bg.js lines 85–92). -/
structure CoreCall where
  imagesRgba : List Nat
  imageWidth : Nat
  imageHeight : Nat
  numImages : Nat
  cropLeft : Nat
  cropTop : Nat
  cropWidth : Nat
  cropHeight : Nat
  gridCols : Nat
  gridRows : Nat
deriving DecidableEq, Repr

/-- The arguments `cropAndGridImages` (sazan-helper.ts lines 36–63) hands to
`crop_and_grid_images`: the flattened buffer `flattenImagesToRgba(images)`,
the shared width/height, `images.length` as `num_images`, the six crop
fields and the grid shape. -/
def mkCoreCall (images : List (List Nat))
    (imageWidth imageHeight cropLeft cropTop cropWidth cropHeight
     gridCols gridRows : Nat) : CoreCall :=
  ⟨flattenImagesToRgba images, imageWidth, imageHeight, images.length,
   cropLeft, cropTop, cropWidth, cropHeight, gridCols, gridRows⟩

/-- Modelled from the spec: the core entry point `crop_and_grid_images`
(§6), whose Rust implementation is not among the shipped sources.  It
expects the flattened buffer to have length `w * h * 4 * num_images`,
requires the crop region to lie within each image's bounds (§4.2,
`CropOutOfBoundsError`), crops every image with the shared region and
composes the crops into a grid (§4.3), returning the output's RGBA bytes. -/
def runCore (call : CoreCall) : Except CoreError (List Nat) :=
  if call.imagesRgba.length ≠
      call.imageWidth * call.imageHeight * 4 * call.numImages then
    Except.error CoreError.invalidBufferLength
  else if call.imageWidth < call.cropLeft + call.cropWidth ∨
          call.imageHeight < call.cropTop + call.cropHeight then
    Except.error CoreError.cropOutOfBounds
  else
    let region : CropRegion :=
      ⟨call.cropLeft, call.cropTop, call.cropWidth, call.cropHeight⟩
    let crops := (List.range call.numImages).map fun i =>
      cropBuf (bytesToBuf call.imagesRgba call.imageWidth call.imageHeight i)
        region
    (composeGrid crops ⟨call.gridCols, call.gridRows⟩
        call.cropWidth call.cropHeight).map bufToBytes

/-- `cropAndGridImages` (sazan-helper.ts lines 36–63): flatten the images and
call the core. -/
def cropAndGridImages (images : List (List Nat))
    (imageWidth imageHeight cropLeft cropTop cropWidth cropHeight
     gridCols gridRows : Nat) : Except CoreError (List Nat) :=
  runCore (mkCoreCall images imageWidth imageHeight cropLeft cropTop
    cropWidth cropHeight gridCols gridRows)

/-! ## The two generation services -/

/-- An element of the image array handed to the generation services
(ImageGenerationService.ts): a name, optional crop coordinates and an
optional canvas.  (The `url` field only feeds image loading, which is
outside the model.) -/
structure SvcImg where
  name : String
  coordinates : Option CropRegion
  canvas : Option Canvas
deriving DecidableEq, Repr

/-- The image-model record a service passes to `normalizeImagesToMaxSize`. -/
def svcToImgObj (img : SvcImg) : ImgObj := ⟨img.name, img.canvas⟩

/-- The crop-coordinate selection shared by both services
(CropGridService.ts line 53, CropSplitService.ts line 34):
`images[0]?.coordinates || { left: 0, top: 0, width: 100, height: 100 }`. -/
def coordinatesToUse (images : List SvcImg) : CropRegion :=
  match images.head? with
  | some img => img.coordinates.getD ⟨0, 0, 100, 100⟩
  | none => ⟨0, 0, 100, 100⟩

/-- The data determining a generated PNG: its dimensions and RGBA bytes. -/
structure OutImage where
  width : Nat
  height : Nat
  rgba : List Nat
deriving DecidableEq, Repr

/-- `canvasToPngBlob` (canvas-helper.ts lines 6–14), modelled up to PNG
encoding: the blob is determined by the RGBA bytes and the dimensions.
`new ImageData(new Uint8ClampedArray(rgba), width, height)` throws when the
byte length does not match the dimensions; context creation is modelled as
always succeeding. -/
def canvasToPngBlob (rgba : List Nat) (width height : Nat) :
    Except String OutImage :=
  if rgba.length = width * height * 4 then Except.ok ⟨width, height, rgba⟩
  else Except.error "ImageData length mismatch"

/-- `generateCropGridImage` (CropGridService.ts lines 41–100), modelled up to
PNG encoding and with the browser environment idealized:
`ensureOffscreenCanvasForImages` is the identity on image sets whose
canvases are already present (image loading is outside the model), and
context creation always succeeds.  A core failure, like the `ImageData`
constructor throwing on a byte-length mismatch, is caught by the service's
`try`/`catch` and reported as `Failed to generate grid image using Wasm.`. -/
def generateCropGridImage (images : List SvcImg) (gridCols gridRows : Nat) :
    Except String OutImage :=
  if images.length = 0 then Except.error "No images available."
  else
    let coords := coordinatesToUse images
    match normalizeImagesToMaxSize (images.map svcToImgObj) with
    | Except.error e => Except.error e
    | Except.ok norm =>
      let cellWidth := coords.width
      let cellHeight := coords.height
      match cropAndGridImages norm.rgbaImages norm.maxWidth norm.maxHeight
          coords.left coords.top coords.width coords.height
          gridCols gridRows with
      | Except.error _ =>
        Except.error "Failed to generate grid image using Wasm."
      | Except.ok outRgba =>
        if outRgba.length = (gridCols * cellWidth) * (gridRows * cellHeight) * 4
        then Except.ok ⟨gridCols * cellWidth, gridRows * cellHeight, outRgba⟩
        else Except.error "Failed to generate grid image using Wasm."

/-- `CropSplitService.generateImage` (CropSplitService.ts lines 22–74),
modelled under the same idealizations as `generateCropGridImage`; the final
PNG is built by `canvasToPngBlob`, whose `ImageData` length-mismatch throw is
caught by the service's `try`/`catch`. -/
def cropSplitGenerateImage (images : List SvcImg) (gridCols gridRows : Nat) :
    Except String OutImage :=
  if images.length = 0 then Except.error "No images available."
  else
    let coords := coordinatesToUse images
    match normalizeImagesToMaxSize (images.map svcToImgObj) with
    | Except.error e => Except.error e
    | Except.ok norm =>
      let cellWidth := coords.width
      let cellHeight := coords.height
      match cropAndGridImages norm.rgbaImages norm.maxWidth norm.maxHeight
          coords.left coords.top coords.width coords.height
          gridCols gridRows with
      | Except.error _ =>
        Except.error "Failed to generate grid image using Wasm."
      | Except.ok gridRgba =>
        match canvasToPngBlob gridRgba (gridCols * cellWidth)
            (gridRows * cellHeight) with
        | Except.ok out => Except.ok out
        | Except.error _ =>
          Except.error "Failed to generate grid image using Wasm."

/-! ## Heap-state embedding of `normalizeImagesToMaxSize`

To state the frame property (the function does not mutate its inputs) the
mutable browser heap is made explicit: a store of canvases, and image
objects holding canvas ids instead of canvas values.  Every canvas operation
of the source is translated to an explicit store read or write:
`new OffscreenCanvas(maxW, maxH)` allocates a fresh (transparent) canvas at
the end of the store, `dstCtx.drawImage(srcCanvas, 0, 0)` writes the
composited pixels to that freshly allocated id, and `getImageData` reads.
The source contains no assignment to the image array, its elements, or any
source canvas, so the image-object list is threaded immutably. -/

/-- An image object holding a reference (a store id) to its canvas. -/
structure ImgObjRef where
  name : String
  canvas : Option Nat
deriving DecidableEq, Repr

/-- Read a canvas from the store. -/
def lookupCanvas (σ : List Canvas) (id : Nat) : Canvas :=
  σ.getD id ⟨0, 0, []⟩

/-- The first loop of `normalizeImagesToMaxSize` over the store: reads only. -/
def computeMaxSizeHeap (σ : List Canvas) (images : List ImgObjRef) : Nat × Nat :=
  images.foldl
    (fun m imgObj =>
      match imgObj.canvas with
      | some id => (Nat.max m.1 (lookupCanvas σ id).width,
                    Nat.max m.2 (lookupCanvas σ id).height)
      | none => m)
    (0, 0)

/-- The second loop of `normalizeImagesToMaxSize` over the store.  The
`else` branch allocates the fresh destination canvas (transparent, appended
at id `σ.length`) and writes the `drawImage` result to that id only. -/
def normalizeLoopHeap (maxW maxH : Nat) (σ : List Canvas) :
    List ImgObjRef → List Canvas × Except String (List (List Nat))
  | [] => (σ, Except.ok [])
  | imgObj :: rest =>
    match imgObj.canvas with
    | none => (σ, Except.error ("No canvas for image: " ++ imgObj.name))
    | some id =>
      let c := lookupCanvas σ id
      if c.width = maxW ∧ c.height = maxH then
        let res := normalizeLoopHeap maxW maxH σ rest
        (res.1, res.2.map fun rs => c.data :: rs)
      else
        let dstId := σ.length
        let σb := (σ ++ [Canvas.mk maxW maxH
            (List.replicate (maxW * maxH * 4) 0)]).set dstId
            ⟨maxW, maxH, drawOnBlankData c maxW maxH⟩
        let out := (lookupCanvas σb dstId).data
        let res := normalizeLoopHeap maxW maxH σb rest
        (res.1, res.2.map fun rs => out :: rs)

/-- `normalizeImagesToMaxSize` over the explicit store: returns the final
store together with the result. -/
def normalizeImagesToMaxSizeHeap (σ : List Canvas) (images : List ImgObjRef) :
    List Canvas × Except String NormalizeResult :=
  let m := computeMaxSizeHeap σ images
  let res := normalizeLoopHeap m.1 m.2 σ images
  (res.1, res.2.map fun rs => ⟨m.1, m.2, rs⟩)

/-- The all-transparent default pixel buffer. -/
def emptyPixBuf : PixBuf := ⟨0, 0, fun _ _ => ⟨0, 0, 0, 0⟩⟩

/-! ## Concrete sample inputs, used in the closed instance theorems -/

/-- A 1×1 constant sample pixel buffer. -/
def samplePixBufA : PixBuf := ⟨1, 1, fun _ _ => ⟨1, 2, 3, 4⟩⟩

/-- A 1×1 constant sample pixel buffer. -/
def samplePixBufB : PixBuf := ⟨1, 1, fun _ _ => ⟨5, 6, 7, 8⟩⟩

/-- A 2×1 sample canvas. -/
def sampleCanvasA : Canvas := ⟨2, 1, [1, 2, 3, 4, 5, 6, 7, 8]⟩

/-- A 1×2 sample canvas. -/
def sampleCanvasB : Canvas := ⟨1, 2, [9, 10, 11, 12, 13, 14, 15, 16]⟩

/-- A 1×1 sample canvas. -/
def sampleCanvasC : Canvas := ⟨1, 1, [21, 22, 23, 24]⟩

/-- A 1×1 sample canvas. -/
def sampleCanvasD : Canvas := ⟨1, 1, [31, 32, 33, 34]⟩

/-- A heterogeneous sample image set (2×1 and 1×2). -/
def sampleImages : List ImgObj :=
  [⟨"a", some sampleCanvasA⟩, ⟨"b", some sampleCanvasB⟩]

/-- A uniformly sized (1×1) sample image set. -/
def sampleUniformImages : List ImgObj :=
  [⟨"c", some sampleCanvasC⟩, ⟨"d", some sampleCanvasD⟩]

/-- A one-element sample service image list (1×1 canvas, full-frame crop). -/
def sampleSvcImages : List SvcImg :=
  [⟨"a", some ⟨0, 0, 1, 1⟩, some ⟨1, 1, [1, 2, 3, 4]⟩⟩]

/-- A sample trailing service image whose coordinates are present. -/
def sampleSvcTail : List SvcImg :=
  [⟨"b", some ⟨5, 5, 9, 9⟩, some ⟨1, 1, [9, 9, 9, 9]⟩⟩]

/-- The same trailing service image with its coordinates absent. -/
def sampleSvcTailNoCoords : List SvcImg :=
  [⟨"b", none, some ⟨1, 1, [9, 9, 9, 9]⟩⟩]

/-! ## Helper lemmas -/

theorem foldl_max_init_le (xs : List Nat) : ∀ a : Nat, a ≤ xs.foldl Nat.max a := by
  induction xs with
  | nil => intro a; exact Nat.le_refl a
  | cons y ys ih =>
    intro a
    exact Nat.le_trans (Nat.le_max_left a y) (ih (Nat.max a y))

theorem le_foldl_max_of_le (xs : List Nat) {a z : Nat} (h : z ≤ a) :
    z ≤ xs.foldl Nat.max a :=
  Nat.le_trans h (foldl_max_init_le xs a)

theorem mem_le_foldl_max (xs : List Nat) : ∀ (a z : Nat), z ∈ xs → z ≤ xs.foldl Nat.max a := by
  induction xs with
  | nil => intro a z hz; cases hz
  | cons y ys ih =>
    intro a z hz
    rw [List.foldl_cons]
    rcases List.mem_cons.mp hz with h | h
    · exact le_foldl_max_of_le ys (h ▸ Nat.le_max_right a y)
    · exact ih (Nat.max a y) z h

theorem foldl_max_mem (xs : List Nat) : ∀ a : Nat, xs.foldl Nat.max a ∈ a :: xs := by
  induction xs with
  | nil => intro a; simp
  | cons y ys ih =>
    intro a
    rw [List.foldl_cons]
    have h := ih (Nat.max a y)
    rcases List.mem_cons.mp h with h1 | h1
    · have h2 : Nat.max a y = a ∨ Nat.max a y = y := by
        unfold Nat.max
        rw [Nat.max_def]
        split
        · exact Or.inr rfl
        · exact Or.inl rfl
      rcases h2 with h2 | h2
      · rw [h1.trans h2]
        exact List.mem_cons_self a _
      · rw [h1.trans h2]
        exact List.mem_cons.mpr (Or.inr (List.mem_cons_self y ys))
    · exact List.mem_cons.mpr (Or.inr (List.mem_cons.mpr (Or.inr h1)))

theorem computeMaxSize_fold (images : List ImgObj) :
    ∀ acc : Nat × Nat, (∀ img ∈ images, img.canvas.isSome) →
      images.foldl
        (fun m imgObj =>
          match imgObj.canvas with
          | some c => (Nat.max m.1 c.width, Nat.max m.2 c.height)
          | none => m) acc =
      ((images.map fun img => (canvasOf img).width).foldl Nat.max acc.1,
       (images.map fun img => (canvasOf img).height).foldl Nat.max acc.2) := by
  induction images with
  | nil => intro acc _; simp
  | cons img rest ih =>
    intro acc hc
    obtain ⟨c, hcv⟩ := Option.isSome_iff_exists.mp (hc img (List.mem_cons_self _ _))
    have hrest : ∀ i ∈ rest, i.canvas.isSome := fun i hi =>
      hc i (List.mem_cons.mpr (Or.inr hi))
    simp only [List.foldl_cons, List.map_cons, hcv, canvasOf, Option.getD_some]
    exact ih (Nat.max acc.1 c.width, Nat.max acc.2 c.height) hrest

theorem computeMaxSize_spec (images : List ImgObj)
    (hc : ∀ img ∈ images, img.canvas.isSome) :
    computeMaxSize images =
      ((images.map fun img => (canvasOf img).width).foldl Nat.max 0,
       (images.map fun img => (canvasOf img).height).foldl Nat.max 0) :=
  computeMaxSize_fold images (0, 0) hc

theorem normalizeLoop_ok (maxW maxH : Nat) (images : List ImgObj)
    (hc : ∀ img ∈ images, img.canvas.isSome) :
    normalizeLoop maxW maxH images =
      Except.ok (images.map fun img => normalizeOut maxW maxH (canvasOf img)) := by
  induction images with
  | nil => rfl
  | cons img rest ih =>
    obtain ⟨c, hcv⟩ := Option.isSome_iff_exists.mp (hc img (List.mem_cons_self _ _))
    have hrest : ∀ i ∈ rest, i.canvas.isSome := fun i hi =>
      hc i (List.mem_cons.mpr (Or.inr hi))
    simp only [normalizeLoop, hcv, ih hrest, List.map_cons, canvasOf,
      Option.getD_some]

theorem normalize_ok (images : List ImgObj)
    (hc : ∀ img ∈ images, img.canvas.isSome) :
    normalizeImagesToMaxSize images = Except.ok
      ⟨(computeMaxSize images).1, (computeMaxSize images).2,
       images.map fun img =>
         normalizeOut (computeMaxSize images).1 (computeMaxSize images).2
           (canvasOf img)⟩ := by
  simp only [normalizeImagesToMaxSize, normalizeLoop_ok _ _ _ hc, bind,
    Except.bind, pure, Except.pure]

theorem foldl_max_eq_of_ne_nil (xs : List Nat)
    (x0 : Nat) (hx0 : x0 ∈ xs) (hx0pos : 0 < x0 ∨ ∀ x ∈ xs, x = x0) :
    xs.foldl Nat.max 0 ∈ xs := by
  rcases List.mem_cons.mp (foldl_max_mem xs 0) with h | h
  · rcases hx0pos with hp | hall
    · have hle := mem_le_foldl_max xs 0 x0 hx0
      omega
    · have hle := mem_le_foldl_max xs 0 x0 hx0
      have : x0 = 0 := by omega
      rw [h, ← this]
      exact hx0
  · exact h

theorem flatMap_const_length {α β : Type} (l : List α) (f : α → List β) (L : Nat)
    (h : ∀ a ∈ l, (f a).length = L) : (l.flatMap f).length = l.length * L := by
  induction l with
  | nil => simp
  | cons a t ih =>
    have ht := ih fun x hx => h x (List.mem_cons.mpr (Or.inr hx))
    simp only [List.flatMap_cons, List.length_append, ht,
      h a (List.mem_cons_self a t), List.length_cons]
    ring

theorem flatMap_getD {α β : Type} (l : List α) (f : α → List β) (L : Nat)
    (h : ∀ a ∈ l, (f a).length = L) (i j : Nat) (hi : i < l.length) (hj : j < L)
    (d : β) (dα : α) :
    (l.flatMap f).getD (i * L + j) d = (f (l.getD i dα)).getD j d := by
  induction l generalizing i with
  | nil => cases hi
  | cons a t ih =>
    have ha := h a (List.mem_cons_self a t)
    have ht : ∀ x ∈ t, (f x).length = L := fun x hx =>
      h x (List.mem_cons.mpr (Or.inr hx))
    cases i with
    | zero =>
      rw [List.flatMap_cons]
      simp only [Nat.zero_mul, Nat.zero_add, List.getD_cons_zero]
      exact List.getD_append _ _ _ _ (by omega)
    | succ i' =>
      rw [List.flatMap_cons]
      have hge : (f a).length ≤ (i' + 1) * L + j := by
        rw [ha, Nat.succ_mul]
        calc L ≤ i' * L + L := Nat.le_add_left L (i' * L)
        _ ≤ i' * L + L + j := Nat.le_add_right _ j
      rw [List.getD_append_right _ _ _ _ hge]
      have hidx : (i' + 1) * L + j - (f a).length = i' * L + j := by
        rw [ha, Nat.succ_mul]
        omega
      rw [hidx, List.getD_cons_succ]
      exact ih ht i' (by simpa using hi)

theorem drawOnBlankData_length (c : Canvas) (maxW maxH : Nat) :
    (drawOnBlankData c maxW maxH).length = maxW * maxH * 4 := by
  unfold drawOnBlankData
  rw [flatMap_const_length _ _ (maxW * 4), List.length_range]
  · ring
  · intro y _
    rw [flatMap_const_length _ _ 4, List.length_range]
    intro x _
    split
    · simp
    · rfl

theorem drawOnBlankData_getD (c : Canvas) (maxW maxH x y ch : Nat)
    (hx : x < maxW) (hy : y < maxH) (hch : ch < 4) :
    (drawOnBlankData c maxW maxH).getD ((y * maxW + x) * 4 + ch) 0 =
      if x < c.width ∧ y < c.height then pixelByte c x y ch else 0 := by
  unfold drawOnBlankData
  have hrow : ∀ y0 ∈ List.range maxH,
      ((List.range maxW).flatMap fun x0 =>
        if x0 < c.width ∧ y0 < c.height then
          (List.range 4).map fun ch0 => pixelByte c x0 y0 ch0
        else [0, 0, 0, 0]).length = maxW * 4 := by
    intro y0 _
    rw [flatMap_const_length _ _ 4, List.length_range]
    intro x0 _
    split
    · simp
    · rfl
  have hidx : (y * maxW + x) * 4 + ch = y * (maxW * 4) + (x * 4 + ch) := by ring
  rw [hidx, flatMap_getD _ _ (maxW * 4) hrow y (x * 4 + ch)
    (by simpa using hy) (by omega) 0 0]
  have hyv : (List.range maxH).getD y 0 = y := by
    rw [List.getD_eq_getElem _ _ (by simpa using hy), List.getElem_range]
  rw [hyv]
  have hblock : ∀ x0 ∈ List.range maxW,
      (if x0 < c.width ∧ y < c.height then
        (List.range 4).map fun ch0 => pixelByte c x0 y ch0
      else [0, 0, 0, 0]).length = 4 := by
    intro x0 _
    split
    · simp
    · rfl
  rw [flatMap_getD _ _ 4 hblock x ch (by simpa using hx) hch 0 0]
  have hxv : (List.range maxW).getD x 0 = x := by
    rw [List.getD_eq_getElem _ _ (by simpa using hx), List.getElem_range]
  rw [hxv]
  split
  · rw [List.getD_eq_getElem _ _ (by simpa using hch)]
    simp
  · interval_cases ch <;> rfl

/-! ## Claim theorems -/

/-- C1: for every non-empty image set in which every element has a canvas
(with positive dimensions), `normalizeImagesToMaxSize` succeeds and the
returned `maxWidth` is the maximum of the inputs' widths while `maxHeight`
is the maximum of the inputs' heights, the two maxima taken independently
(each is attained by some input and bounds all inputs). -/
theorem normalize_canvas_size_is_elementwise_max (images : List ImgObj)
    (hne : images ≠ [])
    (hc : ∀ img ∈ images, img.canvas.isSome)
    (hpos : ∀ img ∈ images,
      0 < (canvasOf img).width ∧ 0 < (canvasOf img).height) :
    ∃ res, normalizeImagesToMaxSize images = Except.ok res ∧
      res.maxWidth ∈ images.map (fun img => (canvasOf img).width) ∧
      (∀ w ∈ images.map (fun img => (canvasOf img).width), w ≤ res.maxWidth) ∧
      res.maxHeight ∈ images.map (fun img => (canvasOf img).height) ∧
      (∀ h ∈ images.map (fun img => (canvasOf img).height), h ≤ res.maxHeight) := by
  obtain ⟨img0, rest, hcons⟩ := List.exists_cons_of_ne_nil hne
  refine ⟨_, normalize_ok images hc, ?_, ?_, ?_, ?_⟩ <;>
    simp only [computeMaxSize_spec images hc]
  · apply foldl_max_eq_of_ne_nil
    · exact List.mem_map_of_mem (fun img => (canvasOf img).width)
        (hcons ▸ List.mem_cons_self img0 rest)
    · exact Or.inl (hpos img0 (hcons ▸ List.mem_cons_self img0 rest)).1
  · intro w hw
    exact mem_le_foldl_max _ 0 w hw
  · apply foldl_max_eq_of_ne_nil
    · exact List.mem_map_of_mem (fun img => (canvasOf img).height)
        (hcons ▸ List.mem_cons_self img0 rest)
    · exact Or.inl (hpos img0 (hcons ▸ List.mem_cons_self img0 rest)).2
  · intro h hh
    exact mem_le_foldl_max _ 0 h hh

/-- C1 closed instance: the sample set containing a 2×1 and a 1×2 canvas has
canvas size 2×2, each maximum attained by a different image. -/
theorem normalize_canvas_size_is_elementwise_max_witness :
    ∃ res, normalizeImagesToMaxSize sampleImages = Except.ok res ∧
      res.maxWidth ∈ sampleImages.map (fun img => (canvasOf img).width) ∧
      (∀ w ∈ sampleImages.map (fun img => (canvasOf img).width),
        w ≤ res.maxWidth) ∧
      res.maxHeight ∈ sampleImages.map (fun img => (canvasOf img).height) ∧
      (∀ h ∈ sampleImages.map (fun img => (canvasOf img).height),
        h ≤ res.maxHeight) :=
  normalize_canvas_size_is_elementwise_max sampleImages (by decide) (by decide)
    (by decide)

/-- C2: every input image that is not already exactly the canvas size (hence,
given the element-wise bounds, strictly smaller than the canvas in at least
one dimension) is normalized to a fresh buffer of exactly the canvas
dimensions in which the source pixels appear verbatim with their top-left
corner at `(0, 0)`, and every pixel outside the source's own bounds has all
four RGBA channels zero. -/
theorem normalize_pads_smaller_images_transparent (images : List ImgObj)
    (i : Nat) (hi : i < images.length)
    (hc : ∀ img ∈ images, img.canvas.isSome)
    (res : NormalizeResult)
    (hres : normalizeImagesToMaxSize images = Except.ok res)
    (hsmall : ¬((canvasOf (images.getD i ⟨"", none⟩)).width = res.maxWidth ∧
               (canvasOf (images.getD i ⟨"", none⟩)).height = res.maxHeight)) :
    (res.rgbaImages.getD i []).length = res.maxWidth * res.maxHeight * 4 ∧
    (∀ x y ch, x < (canvasOf (images.getD i ⟨"", none⟩)).width →
      y < (canvasOf (images.getD i ⟨"", none⟩)).height → ch < 4 →
      (res.rgbaImages.getD i []).getD ((y * res.maxWidth + x) * 4 + ch) 0 =
        pixelByte (canvasOf (images.getD i ⟨"", none⟩)) x y ch) ∧
    (∀ x y ch, x < res.maxWidth → y < res.maxHeight → ch < 4 →
      ((canvasOf (images.getD i ⟨"", none⟩)).width ≤ x ∨
       (canvasOf (images.getD i ⟨"", none⟩)).height ≤ y) →
      (res.rgbaImages.getD i []).getD ((y * res.maxWidth + x) * 4 + ch) 0 = 0) := by
  rw [normalize_ok images hc] at hres
  have hres' := (Except.ok.injEq _ _).mp hres
  subst hres'
  set c := canvasOf (images.getD i ⟨"", none⟩) with hc_def
  have hmemi : images.getD i ⟨"", none⟩ ∈ images := by
    rw [List.getD_eq_getElem _ _ hi]
    exact List.getElem_mem hi
  have hwle : c.width ≤ (computeMaxSize images).1 := by
    rw [computeMaxSize_spec images hc]
    exact mem_le_foldl_max _ 0 c.width
      (List.mem_map_of_mem (fun img => (canvasOf img).width) hmemi)
  have hhle : c.height ≤ (computeMaxSize images).2 := by
    rw [computeMaxSize_spec images hc]
    exact mem_le_foldl_max _ 0 c.height
      (List.mem_map_of_mem (fun img => (canvasOf img).height) hmemi)
  have hout : (List.map
      (fun img => normalizeOut (computeMaxSize images).1
        (computeMaxSize images).2 (canvasOf img)) images).getD i [] =
      drawOnBlankData c (computeMaxSize images).1 (computeMaxSize images).2 := by
    rw [List.getD_eq_getElem _ _ (by simpa using hi), List.getElem_map,
      ← List.getD_eq_getElem _ _ hi, ← hc_def, normalizeOut, if_neg]
    exact hsmall
  simp only [hout]
  refine ⟨drawOnBlankData_length c _ _, ?_, ?_⟩
  · intro x y ch hx hy hch
    rw [drawOnBlankData_getD c _ _ x y ch (Nat.lt_of_lt_of_le hx hwle)
      (Nat.lt_of_lt_of_le hy hhle) hch, if_pos ⟨hx, hy⟩]
  · intro x y ch hx hy hch houtside
    rw [drawOnBlankData_getD c _ _ x y ch hx hy hch, if_neg]
    omega

/-- C2 closed instance: in the sample set the 2×1 image is padded to 2×2 with
its pixels verbatim at the top-left and transparent padding below. -/
theorem normalize_pads_smaller_images_transparent_witness :
    ((NormalizeResult.mk 2 2
        [[1, 2, 3, 4, 5, 6, 7, 8, 0, 0, 0, 0, 0, 0, 0, 0],
         [9, 10, 11, 12, 0, 0, 0, 0, 13, 14, 15, 16, 0, 0, 0, 0]]).rgbaImages.getD
        0 []).length = 2 * 2 * 4 ∧
    (∀ x y ch, x < (canvasOf (sampleImages.getD 0 ⟨"", none⟩)).width →
      y < (canvasOf (sampleImages.getD 0 ⟨"", none⟩)).height → ch < 4 →
      (((NormalizeResult.mk 2 2
        [[1, 2, 3, 4, 5, 6, 7, 8, 0, 0, 0, 0, 0, 0, 0, 0],
         [9, 10, 11, 12, 0, 0, 0, 0, 13, 14, 15, 16, 0, 0, 0, 0]]).rgbaImages.getD
        0 []).getD ((y * 2 + x) * 4 + ch) 0 =
        pixelByte (canvasOf (sampleImages.getD 0 ⟨"", none⟩)) x y ch)) ∧
    (∀ x y ch, x < 2 → y < 2 → ch < 4 →
      ((canvasOf (sampleImages.getD 0 ⟨"", none⟩)).width ≤ x ∨
       (canvasOf (sampleImages.getD 0 ⟨"", none⟩)).height ≤ y) →
      ((NormalizeResult.mk 2 2
        [[1, 2, 3, 4, 5, 6, 7, 8, 0, 0, 0, 0, 0, 0, 0, 0],
         [9, 10, 11, 12, 0, 0, 0, 0, 13, 14, 15, 16, 0, 0, 0, 0]]).rgbaImages.getD
        0 []).getD ((y * 2 + x) * 4 + ch) 0 = 0) :=
  normalize_pads_smaller_images_transparent sampleImages 0 (by decide)
    (by decide) _ rfl (by decide)

/-- C3 counterexample: `normalizeImagesToMaxSize` applied to the empty image
set does not fail with an error; it returns the degenerate 0×0 result with
an empty buffer list. -/
theorem normalize_empty_returns_degenerate :
    normalizeImagesToMaxSize [] = Except.ok ⟨0, 0, []⟩ := rfl

/-- C3 (amended): `normalizeImagesToMaxSize` itself returns the degenerate
`{maxWidth := 0, maxHeight := 0, rgbaImages := []}` on an empty set; the
empty-input rejection happens in the callers, which return the error
`No images available.` before invoking normalization. -/
theorem empty_input_rejected_by_services :
    normalizeImagesToMaxSize [] = Except.ok ⟨0, 0, []⟩ ∧
    ∀ gridCols gridRows : Nat,
      generateCropGridImage [] gridCols gridRows =
        Except.error "No images available." ∧
      cropSplitGenerateImage [] gridCols gridRows =
        Except.error "No images available." :=
  ⟨rfl, fun _ _ => ⟨rfl, rfl⟩⟩

theorem foldl_append_eq (l : List (List Nat)) :
    ∀ acc : List Nat, l.foldl (fun r a => r ++ a) acc = acc ++ l.flatten := by
  induction l with
  | nil => intro acc; simp
  | cons a t ih =>
    intro acc
    rw [List.foldl_cons, ih (acc ++ a), List.flatten_cons, List.append_assoc]

theorem flattenImagesToRgba_eq_flatten (l : List (List Nat)) :
    flattenImagesToRgba l = l.flatten := by
  simpa using foldl_append_eq l []

theorem flatten_length (l : List (List Nat)) :
    l.flatten.length = (l.map List.length).sum := by
  induction l with
  | nil => rfl
  | cons a t ih => simp [ih]

theorem flatten_slice (l : List (List Nat)) :
    ∀ i, i < l.length →
      (l.flatten.drop ((l.take i).map List.length).sum).take
        (l.getD i []).length = l.getD i [] := by
  induction l with
  | nil => intro i hi; cases hi
  | cons a t ih =>
    intro i hi
    cases i with
    | zero =>
      simp only [List.take_zero, List.map_nil, List.sum_nil, List.drop_zero,
        List.flatten_cons, List.getD_cons_zero]
      exact List.take_left a t.flatten
    | succ i' =>
      simp only [List.take_succ_cons, List.map_cons, List.sum_cons,
        List.flatten_cons, List.getD_cons_succ]
      rw [← List.drop_drop, List.drop_left]
      exact ih i' (by simpa using hi)

/-- C6: the byte buffer handed to the embedded core is the in-order
concatenation of the per-image RGBA arrays — its length is the sum of the
individual lengths and image `i` occupies the contiguous slice starting at
the sum of the lengths of images `0..i-1` — `num_images` is the list length,
and normalization emits exactly one RGBA array per input, in input order
(the `j`-th output buffer is the normalization of the `j`-th input). -/
theorem core_call_buffer_is_ordered_concatenation
    (imagesRgba : List (List Nat))
    (w h cl ct cw chh cols rows : Nat)
    (images : List ImgObj) (res : NormalizeResult)
    (hc : ∀ img ∈ images, img.canvas.isSome)
    (hres : normalizeImagesToMaxSize images = Except.ok res) :
    (mkCoreCall imagesRgba w h cl ct cw chh cols rows).imagesRgba.length =
      (imagesRgba.map List.length).sum ∧
    (∀ i, i < imagesRgba.length →
      ((mkCoreCall imagesRgba w h cl ct cw chh cols rows).imagesRgba.drop
          ((imagesRgba.take i).map List.length).sum).take
        (imagesRgba.getD i []).length = imagesRgba.getD i []) ∧
    (mkCoreCall imagesRgba w h cl ct cw chh cols rows).numImages =
      imagesRgba.length ∧
    res.rgbaImages.length = images.length ∧
    (∀ j, j < images.length → res.rgbaImages.getD j [] =
      normalizeOut res.maxWidth res.maxHeight
        (canvasOf (images.getD j ⟨"", none⟩))) := by
  rw [normalize_ok images hc] at hres
  have hres' := (Except.ok.injEq _ _).mp hres
  subst hres'
  refine ⟨?_, ?_, rfl, by simp, ?_⟩
  · show (flattenImagesToRgba imagesRgba).length = _
    rw [flattenImagesToRgba_eq_flatten, flatten_length]
  · intro i hi
    show ((flattenImagesToRgba imagesRgba).drop _).take _ = _
    rw [flattenImagesToRgba_eq_flatten]
    exact flatten_slice imagesRgba i hi
  · intro j hj
    simp only
    rw [List.getD_eq_getElem _ _ (by simpa using hj), List.getElem_map,
      ← List.getD_eq_getElem _ _ hj]

/-- C6 closed instance: two 4-byte images concatenate to an 8-byte buffer
with `num_images = 2`, and normalizing the uniform sample emits one buffer
per input in order. -/
theorem core_call_buffer_is_ordered_concatenation_witness :
    (mkCoreCall [[1, 2, 3, 4], [5, 6, 7, 8]] 1 1 0 0 1 1 2 1).imagesRgba.length =
      ([[1, 2, 3, 4], [5, 6, 7, 8]].map List.length).sum ∧
    (∀ i, i < ([[1, 2, 3, 4], [5, 6, 7, 8]] : List (List Nat)).length →
      ((mkCoreCall [[1, 2, 3, 4], [5, 6, 7, 8]] 1 1 0 0 1 1 2 1).imagesRgba.drop
          ((([[1, 2, 3, 4], [5, 6, 7, 8]] : List (List Nat)).take i).map
            List.length).sum).take
        (([[1, 2, 3, 4], [5, 6, 7, 8]] : List (List Nat)).getD i []).length =
        ([[1, 2, 3, 4], [5, 6, 7, 8]] : List (List Nat)).getD i []) ∧
    (mkCoreCall [[1, 2, 3, 4], [5, 6, 7, 8]] 1 1 0 0 1 1 2 1).numImages =
      ([[1, 2, 3, 4], [5, 6, 7, 8]] : List (List Nat)).length ∧
    (NormalizeResult.mk 1 1 [[21, 22, 23, 24], [31, 32, 33, 34]]).rgbaImages.length =
      sampleUniformImages.length ∧
    (∀ j, j < sampleUniformImages.length →
      (NormalizeResult.mk 1 1
        [[21, 22, 23, 24], [31, 32, 33, 34]]).rgbaImages.getD j [] =
        normalizeOut 1 1 (canvasOf (sampleUniformImages.getD j ⟨"", none⟩))) :=
  core_call_buffer_is_ordered_concatenation [[1, 2, 3, 4], [5, 6, 7, 8]]
    1 1 0 0 1 1 2 1 sampleUniformImages _ (by decide) rfl

/-- C7: normalization is idempotent on uniformly sized input — for a
non-empty image set whose canvases all already have the common (maximal)
size `W × H`, every returned buffer is byte-identical to the corresponding
input canvas's data, in order. -/
theorem normalize_idempotent_on_uniform (images : List ImgObj) (W H : Nat)
    (hne : images ≠ [])
    (hc : ∀ img ∈ images, img.canvas.isSome)
    (hsize : ∀ img ∈ images,
      (canvasOf img).width = W ∧ (canvasOf img).height = H) :
    normalizeImagesToMaxSize images =
      Except.ok ⟨W, H, images.map fun img => (canvasOf img).data⟩ := by
  obtain ⟨img0, rest, hcons⟩ := List.exists_cons_of_ne_nil hne
  have hmem0 : img0 ∈ images := hcons ▸ List.mem_cons_self img0 rest
  have hW : (images.map fun img => (canvasOf img).width).foldl Nat.max 0 = W := by
    have hmem := foldl_max_eq_of_ne_nil
      (images.map fun img => (canvasOf img).width)
      (canvasOf img0).width
      (List.mem_map_of_mem (fun img => (canvasOf img).width) hmem0)
      (Or.inr ?_)
    · obtain ⟨img1, hm1, he1⟩ := List.mem_map.mp hmem
      rw [← he1]
      exact (hsize img1 hm1).1
    · intro x hx
      obtain ⟨img1, hm1, he1⟩ := List.mem_map.mp hx
      rw [← he1, (hsize img1 hm1).1, (hsize img0 hmem0).1]
  have hH : (images.map fun img => (canvasOf img).height).foldl Nat.max 0 = H := by
    have hmem := foldl_max_eq_of_ne_nil
      (images.map fun img => (canvasOf img).height)
      (canvasOf img0).height
      (List.mem_map_of_mem (fun img => (canvasOf img).height) hmem0)
      (Or.inr ?_)
    · obtain ⟨img1, hm1, he1⟩ := List.mem_map.mp hmem
      rw [← he1]
      exact (hsize img1 hm1).2
    · intro x hx
      obtain ⟨img1, hm1, he1⟩ := List.mem_map.mp hx
      rw [← he1, (hsize img1 hm1).2, (hsize img0 hmem0).2]
  have hmax : computeMaxSize images = (W, H) := by
    rw [computeMaxSize_spec images hc, hW, hH]
  rw [normalize_ok images hc]
  simp only [hmax]
  have hmap : List.map (fun img => normalizeOut W H (canvasOf img)) images =
      List.map (fun img => (canvasOf img).data) images :=
    List.map_congr_left fun img hm => by
      simp [normalizeOut, (hsize img hm).1, (hsize img hm).2]
  rw [hmap]

theorem set_append_length (σ : List Canvas) (b c : Canvas) :
    (σ ++ [b]).set σ.length c = σ ++ [c] := by
  induction σ with
  | nil => rfl
  | cons a t ih => simp [ih]

theorem normalizeLoopHeap_frame (maxW maxH : Nat) :
    ∀ (images : List ImgObjRef) (σ : List Canvas),
      ((normalizeLoopHeap maxW maxH σ images).1).take σ.length = σ := by
  intro images
  induction images with
  | nil => intro σ; simp [normalizeLoopHeap]
  | cons img rest ih =>
    intro σ
    unfold normalizeLoopHeap
    cases hcv : img.canvas with
    | none => simp
    | some id =>
      simp only
      split
      · exact ih σ
      · simp only [set_append_length]
        have h1 := ih (σ ++ [(⟨maxW, maxH, drawOnBlankData
          (lookupCanvas σ id) maxW maxH⟩ : Canvas)])
        have h2 : σ.length ≤ (σ ++ [(⟨maxW, maxH, drawOnBlankData
            (lookupCanvas σ id) maxW maxH⟩ : Canvas)]).length := by
          simp
        have h3 := congrArg (List.take σ.length) h1
        rw [List.take_take, Nat.min_eq_left h2] at h3
        rw [h3]
        exact List.take_left' rfl

/-- C8: `normalizeImagesToMaxSize` does not mutate its inputs.  Over the
explicit-heap embedding, for every initial canvas store and every image
list, every canvas that existed before the call is unchanged in the final
store (the call only appends freshly allocated canvases); the image-object
list itself is threaded immutably because the source performs no assignment
to the array or its elements. -/
theorem normalize_does_not_mutate_inputs (σ : List Canvas)
    (images : List ImgObjRef) :
    ((normalizeImagesToMaxSizeHeap σ images).1).take σ.length = σ ∧
    ∀ id, id < σ.length →
      lookupCanvas (normalizeImagesToMaxSizeHeap σ images).1 id =
        lookupCanvas σ id := by
  have ht : ((normalizeImagesToMaxSizeHeap σ images).1).take σ.length = σ :=
    normalizeLoopHeap_frame _ _ images σ
  refine ⟨ht, fun id hid => ?_⟩
  unfold lookupCanvas
  conv_rhs => rw [← ht]
  rw [List.getD_eq_getElem?_getD, List.getD_eq_getElem?_getD,
    List.getElem?_take_of_lt hid]

theorem lt_div_succ_mul (x c : Nat) (hc : 0 < c) : x < (x / c + 1) * c := by
  have h := Nat.div_add_mod x c
  have h2 := Nat.mod_lt x hc
  calc x = c * (x / c) + x % c := h.symm
    _ < c * (x / c) + c := by omega
    _ = (x / c + 1) * c := by ring

theorem idx_div (cx cy cols : Nat) (hcols : 0 < cols) (h : cx < cols) :
    (cy * cols + cx) / cols = cy := by
  rw [Nat.add_comm, Nat.add_mul_div_right cx cy hcols, Nat.div_eq_of_lt h,
    Nat.zero_add]

theorem idx_mod (cx cy cols : Nat) (h : cx < cols) :
    (cy * cols + cx) % cols = cx := by
  rw [Nat.add_comm, Nat.add_mul_mod_self_right, Nat.mod_eq_of_lt h]

theorem placeCrop_apply (spec : GridSpec) (cellW cellH : Nat)
    (hcw : 0 < cellW) (hch : 0 < cellH) (hcols : 0 < spec.cols)
    (acc : Nat → Nat → RGBA) (i : Nat) (c : PixBuf) (x y : Nat) :
    placeCrop spec cellW cellH acc i c x y =
      if x / cellW < spec.cols ∧ y / cellH < spec.rows ∧
         y / cellH * spec.cols + x / cellW = i
      then c.pix (x % cellW) (y % cellH)
      else acc x y := by
  simp only [placeCrop]
  by_cases hrow : spec.rows ≤ i / spec.cols
  · rw [if_pos hrow, if_neg]
    rintro ⟨h1, h2, h3⟩
    rw [← h3, idx_div _ _ _ hcols h1] at hrow
    omega
  · rw [if_neg hrow]
    by_cases hreg : i % spec.cols * cellW ≤ x ∧
        x < i % spec.cols * cellW + cellW ∧
        i / spec.cols * cellH ≤ y ∧ y < i / spec.cols * cellH + cellH
    · obtain ⟨ha, hb, hc2, hd⟩ := hreg
      have hcol : x / cellW = i % spec.cols :=
        Nat.div_eq_of_lt_le ha (by rw [Nat.succ_mul]; exact hb)
      have hrw : y / cellH = i / spec.cols :=
        Nat.div_eq_of_lt_le hc2 (by rw [Nat.succ_mul]; exact hd)
      rw [if_pos ⟨ha, hb, hc2, hd⟩, if_pos]
      · rw [Nat.mod_def x cellW, Nat.mod_def y cellH, hcol, hrw,
          Nat.mul_comm cellW (i % spec.cols), Nat.mul_comm cellH (i / spec.cols)]
      · refine ⟨?_, ?_, ?_⟩
        · rw [hcol]; exact Nat.mod_lt i hcols
        · rw [hrw]; omega
        · rw [hcol, hrw]
          have hdm := Nat.div_add_mod i spec.cols
          rw [Nat.mul_comm] at hdm
          exact hdm
    · rw [if_neg hreg, if_neg]
      rintro ⟨h1, h2, h3⟩
      have hmod : i % spec.cols = x / cellW := by
        rw [← h3, idx_mod _ _ _ h1]
      have hdiv : i / spec.cols = y / cellH := by
        rw [← h3, idx_div _ _ _ hcols h1]
      refine hreg ⟨?_, ?_, ?_, ?_⟩
      · rw [hmod]; exact Nat.div_mul_le_self x cellW
      · rw [hmod, ← Nat.succ_mul]; exact lt_div_succ_mul x cellW hcw
      · rw [hdiv]; exact Nat.div_mul_le_self y cellH
      · rw [hdiv, ← Nat.succ_mul]; exact lt_div_succ_mul y cellH hch

theorem composeFold_apply (spec : GridSpec) (cellW cellH : Nat)
    (hcw : 0 < cellW) (hch : 0 < cellH) (hcols : 0 < spec.cols) :
    ∀ (crops : List PixBuf) (k : Nat) (acc : Nat → Nat → RGBA) (x y : Nat),
      ((List.enumFrom k crops).foldl
        (fun a p => placeCrop spec cellW cellH a p.1 p.2) acc) x y =
      if x / cellW < spec.cols ∧ y / cellH < spec.rows ∧
         k ≤ y / cellH * spec.cols + x / cellW ∧
         y / cellH * spec.cols + x / cellW < k + crops.length
      then (crops.getD (y / cellH * spec.cols + x / cellW - k) emptyPixBuf).pix
        (x % cellW) (y % cellH)
      else acc x y := by
  intro crops
  induction crops with
  | nil =>
    intro k acc x y
    simp only [List.enumFrom_nil, List.foldl_nil, List.length_nil, Nat.add_zero]
    rw [if_neg]
    rintro ⟨_, _, hc3, hd⟩
    omega
  | cons c rest ih =>
    intro k acc x y
    simp only [List.enumFrom_cons, List.foldl_cons, List.length_cons]
    rw [ih (k + 1) (placeCrop spec cellW cellH acc k c),
      placeCrop_apply spec cellW cellH hcw hch hcols acc k c x y]
    by_cases h1 : x / cellW < spec.cols
    case neg =>
      rw [if_neg (by rintro ⟨ha, _⟩; exact h1 ha),
        if_neg (by rintro ⟨ha, _⟩; exact h1 ha),
        if_neg (by rintro ⟨ha, _⟩; exact h1 ha)]
    case pos =>
    by_cases h2 : y / cellH < spec.rows
    case neg =>
      rw [if_neg (by rintro ⟨_, hb, _⟩; exact h2 hb),
        if_neg (by rintro ⟨_, hb, _⟩; exact h2 hb),
        if_neg (by rintro ⟨_, hb, _⟩; exact h2 hb)]
    case pos =>
    by_cases h3 : k + 1 ≤ y / cellH * spec.cols + x / cellW
    · by_cases h4 : y / cellH * spec.cols + x / cellW < k + 1 + rest.length
      · rw [if_pos ⟨h1, h2, h3, h4⟩, if_pos ⟨h1, h2, by omega, by omega⟩]
        have he : y / cellH * spec.cols + x / cellW - k =
            (y / cellH * spec.cols + x / cellW - (k + 1)) + 1 := by omega
        rw [he, List.getD_cons_succ]
      · rw [if_neg (by rintro ⟨_, _, _, hd⟩; omega),
          if_neg (by rintro ⟨_, _, he⟩; omega),
          if_neg (by rintro ⟨_, _, _, hd⟩; omega)]
    · by_cases h5 : y / cellH * spec.cols + x / cellW = k
      · rw [if_neg (by rintro ⟨_, _, hc3, _⟩; omega),
          if_pos ⟨h1, h2, h5⟩, if_pos ⟨h1, h2, by omega, by omega⟩]
        have he : y / cellH * spec.cols + x / cellW - k = 0 := by omega
        rw [he, List.getD_cons_zero]
      · rw [if_neg (by rintro ⟨_, _, hc3, _⟩; omega),
          if_neg (by rintro ⟨_, _, he⟩; exact h5 he),
          if_neg (by rintro ⟨_, _, hc3, _⟩; omega)]

theorem composeGridPix_eq_fold (crops : List PixBuf) (spec : GridSpec)
    (cellW cellH : Nat) :
    composeGridPix crops spec cellW cellH =
      (List.enumFrom 0 crops).foldl
        (fun a p => placeCrop spec cellW cellH a p.1 p.2)
        (fun _ _ => ⟨0, 0, 0, 0⟩) := rfl

/-- C4 (spec-modelled GridComposer): with `cols * rows < N` equally sized
crops, `composeGrid` places exactly the first `cols * rows` crops in
row-major order — the output equals the composition of just the first
`cols * rows` crops, crop `i` fills the cell at column `i mod cols`, row
`i div cols` — and the surplus crops are silently dropped without an
error. -/
theorem composeGrid_drops_surplus_beyond_capacity (crops : List PixBuf)
    (spec : GridSpec) (cellW cellH : Nat)
    (hcols : 0 < spec.cols) (hrows : 0 < spec.rows)
    (hcw : 0 < cellW) (hch : 0 < cellH)
    (_hsize : ∀ b ∈ crops, b.width = cellW ∧ b.height = cellH)
    (hcap : spec.cols * spec.rows < crops.length) :
    composeGrid crops spec cellW cellH =
      composeGrid (crops.take (spec.cols * spec.rows)) spec cellW cellH ∧
    (∃ out, composeGrid crops spec cellW cellH = Except.ok out) ∧
    (∀ i x y, i < spec.cols * spec.rows → x < cellW → y < cellH →
      composeGridPix crops spec cellW cellH
        (i % spec.cols * cellW + x) (i / spec.cols * cellH + y) =
      (crops.getD i emptyPixBuf).pix x y) := by
  have hno : ¬(spec.cols = 0 ∨ spec.rows = 0) := by omega
  refine ⟨?_, ⟨_, by unfold composeGrid; rw [if_neg hno]⟩, ?_⟩
  · unfold composeGrid
    rw [if_neg hno, if_neg hno]
    have hpix : composeGridPix crops spec cellW cellH =
        composeGridPix (crops.take (spec.cols * spec.rows)) spec cellW cellH := by
      funext x y
      rw [composeGridPix_eq_fold, composeGridPix_eq_fold,
        composeFold_apply spec cellW cellH hcw hch hcols,
        composeFold_apply spec cellW cellH hcw hch hcols]
      by_cases h1 : x / cellW < spec.cols
      case neg =>
        rw [if_neg (by rintro ⟨ha, _⟩; exact h1 ha),
          if_neg (by rintro ⟨ha, _⟩; exact h1 ha)]
      case pos =>
      by_cases h2 : y / cellH < spec.rows
      case neg =>
        rw [if_neg (by rintro ⟨_, hb, _⟩; exact h2 hb),
          if_neg (by rintro ⟨_, hb, _⟩; exact h2 hb)]
      case pos =>
      have hidxlt : y / cellH * spec.cols + x / cellW <
          spec.cols * spec.rows := by
        calc y / cellH * spec.cols + x / cellW
            < y / cellH * spec.cols + spec.cols := Nat.add_lt_add_left h1 _
          _ = (y / cellH + 1) * spec.cols := (Nat.succ_mul _ _).symm
          _ ≤ spec.rows * spec.cols := Nat.mul_le_mul_right spec.cols h2
          _ = spec.cols * spec.rows := Nat.mul_comm _ _
      have hlt2 : y / cellH * spec.cols + x / cellW <
          0 + (List.take (spec.cols * spec.rows) crops).length := by
        rw [List.length_take]
        omega
      rw [if_pos ⟨h1, h2, Nat.zero_le _, by omega⟩,
        if_pos ⟨h1, h2, Nat.zero_le _, hlt2⟩,
        List.getD_eq_getElem?_getD, List.getD_eq_getElem?_getD,
        Nat.sub_zero, List.getElem?_take_of_lt hidxlt]
    rw [hpix]
  · intro i x y hi hx hy
    have hpx : (i % spec.cols * cellW + x) / cellW = i % spec.cols :=
      Nat.div_eq_of_lt_le (Nat.le_add_right _ _)
        (by rw [Nat.succ_mul]; omega)
    have hpy : (i / spec.cols * cellH + y) / cellH = i / spec.cols :=
      Nat.div_eq_of_lt_le (Nat.le_add_right _ _)
        (by rw [Nat.succ_mul]; omega)
    have hmx : (i % spec.cols * cellW + x) % cellW = x := by
      rw [Nat.add_comm, Nat.add_mul_mod_self_right, Nat.mod_eq_of_lt hx]
    have hmy : (i / spec.cols * cellH + y) % cellH = y := by
      rw [Nat.add_comm, Nat.add_mul_mod_self_right, Nat.mod_eq_of_lt hy]
    have hcy : i / spec.cols < spec.rows := by
      rw [Nat.div_lt_iff_lt_mul hcols]
      calc i < spec.cols * spec.rows := hi
        _ = spec.rows * spec.cols := Nat.mul_comm _ _
    have hidx : (i / spec.cols * cellH + y) / cellH * spec.cols +
        (i % spec.cols * cellW + x) / cellW = i := by
      rw [hpx, hpy]
      have hdm := Nat.div_add_mod i spec.cols
      rw [Nat.mul_comm] at hdm
      exact hdm
    rw [composeGridPix_eq_fold,
      composeFold_apply spec cellW cellH hcw hch hcols,
      if_pos ⟨by rw [hpx]; exact Nat.mod_lt i hcols,
        by rw [hpy]; exact hcy,
        by omega, by rw [hidx]; omega⟩,
      hidx, hmx, hmy]
    rfl

/-- C4 closed instance: three 1×1 crops in a 1×1 grid — the composition
equals that of the first crop alone, succeeds, and cell 0 holds crop 0. -/
theorem composeGrid_drops_surplus_beyond_capacity_witness :
    composeGrid [samplePixBufA, samplePixBufB, samplePixBufA] ⟨1, 1⟩ 1 1 =
      composeGrid ([samplePixBufA, samplePixBufB, samplePixBufA].take (1 * 1))
        ⟨1, 1⟩ 1 1 ∧
    (∃ out, composeGrid [samplePixBufA, samplePixBufB, samplePixBufA] ⟨1, 1⟩ 1 1 =
      Except.ok out) ∧
    (∀ i x y, i < 1 * 1 → x < 1 → y < 1 →
      composeGridPix [samplePixBufA, samplePixBufB, samplePixBufA] ⟨1, 1⟩ 1 1
        (i % 1 * 1 + x) (i / 1 * 1 + y) =
      ([samplePixBufA, samplePixBufB, samplePixBufA].getD i emptyPixBuf).pix x y) :=
  composeGrid_drops_surplus_beyond_capacity
    [samplePixBufA, samplePixBufB, samplePixBufA] ⟨1, 1⟩ 1 1
    (by decide) (by decide) (by decide) (by decide)
    (by decide) (by decide)

/-- C7 closed instance: normalizing two 1×1 images returns their buffers
byte-identical. -/
theorem normalize_idempotent_on_uniform_witness :
    normalizeImagesToMaxSize sampleUniformImages =
      Except.ok ⟨1, 1, sampleUniformImages.map fun img => (canvasOf img).data⟩ :=
  normalize_idempotent_on_uniform sampleUniformImages 1 1 (by decide)
    (by decide) (by decide)

/-- C9: the web UI's grid mode and split mode are pixel-equivalent — on
identical inputs, `CropGridService.generateCropGridImage` and
`CropSplitService.generateImage` invoke the single core entry with identical
arguments and build their output PNG from the same returned RGBA bytes at
the same dimensions, so their results coincide on every input (neither
invokes any tile-splitting operation: both are defined solely through
`cropAndGridImages`). -/
theorem grid_and_split_services_pixel_equivalent (images : List SvcImg)
    (gridCols gridRows : Nat) :
    generateCropGridImage images gridCols gridRows =
      cropSplitGenerateImage images gridCols gridRows := by
  by_cases hemp : images.length = 0
  · simp [generateCropGridImage, cropSplitGenerateImage, hemp]
  · simp only [generateCropGridImage, cropSplitGenerateImage, if_neg hemp]
    cases hn : normalizeImagesToMaxSize (images.map svcToImgObj) with
    | error e => rfl
    | ok norm =>
      cases hc : cropAndGridImages norm.rgbaImages norm.maxWidth norm.maxHeight
          (coordinatesToUse images).left (coordinatesToUse images).top
          (coordinatesToUse images).width (coordinatesToUse images).height
          gridCols gridRows with
      | error e => simp only [hc]
      | ok outRgba =>
        simp only [hc, canvasToPngBlob]
        by_cases hlen : outRgba.length =
            gridCols * (coordinatesToUse images).width *
              (gridRows * (coordinatesToUse images).height) * 4
        · rw [if_pos hlen, if_pos hlen]
        · rw [if_neg hlen, if_neg hlen]

/-- C5: every successful grid-composition request returns an image of
dimensions exactly `gridCols * cropWidth` by `gridRows * cropHeight`, where
the crop region is the one selected from the image set; the dimensions are a
function only of the grid spec and the crop region, never of the number of
input images. -/
theorem output_dimensions_from_grid_and_crop (images : List SvcImg)
    (gridCols gridRows : Nat) (out : OutImage)
    (hout : generateCropGridImage images gridCols gridRows = Except.ok out) :
    out.width = gridCols * (coordinatesToUse images).width ∧
    out.height = gridRows * (coordinatesToUse images).height := by
  by_cases hemp : images.length = 0
  · simp [generateCropGridImage, hemp] at hout
  · simp only [generateCropGridImage, if_neg hemp] at hout
    cases hn : normalizeImagesToMaxSize (images.map svcToImgObj) with
    | error e =>
      rw [hn] at hout
      exact Except.noConfusion hout
    | ok norm =>
      rw [hn] at hout
      cases hc : cropAndGridImages norm.rgbaImages norm.maxWidth norm.maxHeight
          (coordinatesToUse images).left (coordinatesToUse images).top
          (coordinatesToUse images).width (coordinatesToUse images).height
          gridCols gridRows with
      | error e =>
        simp only [hc] at hout
        exact Except.noConfusion hout
      | ok outRgba =>
        simp only [hc] at hout
        by_cases hlen : outRgba.length =
            gridCols * (coordinatesToUse images).width *
              (gridRows * (coordinatesToUse images).height) * 4
        · rw [if_pos hlen] at hout
          have h := (Except.ok.injEq _ _).mp hout
          rw [← h]
          exact ⟨rfl, rfl⟩
        · rw [if_neg hlen] at hout
          exact Except.noConfusion hout

/-- C5 closed instance: a successful 1×1-grid run over a single 1×1 image
with a full-frame crop yields a 1×1 output. -/
theorem output_dimensions_from_grid_and_crop_witness :
    (OutImage.mk 1 1 [1, 2, 3, 4]).width =
      1 * (coordinatesToUse sampleSvcImages).width ∧
    (OutImage.mk 1 1 [1, 2, 3, 4]).height =
      1 * (coordinatesToUse sampleSvcImages).height :=
  output_dimensions_from_grid_and_crop sampleSvcImages 1 1 _ rfl

theorem map_svcToImgObj_congr :
    ∀ (l1 l2 : List SvcImg), l1.map SvcImg.name = l2.map SvcImg.name →
      l1.map SvcImg.canvas = l2.map SvcImg.canvas →
      l1.map svcToImgObj = l2.map svcToImgObj := by
  intro l1
  induction l1 with
  | nil =>
    intro l2 hn _
    cases l2 with
    | nil => rfl
    | cons b t => cases hn
  | cons a t1 ih =>
    intro l2 hn hcv
    cases l2 with
    | nil => cases hn
    | cons b t2 =>
      simp only [List.map_cons, List.cons.injEq] at hn hcv ⊢
      exact ⟨by simp [svcToImgObj, hn.1, hcv.1], ih t2 hn.2 hcv.2⟩

/-- C10: both generation services crop every image with only the first
image's crop coordinates — the region used (and passed to the core) is
`images[0].coordinates`, defaulting to `{left: 0, top: 0, width: 100,
height: 100}` when absent, and the coordinates of all later images are
ignored: replacing the tail's coordinates while keeping names and canvases
leaves both services' outputs unchanged. -/
theorem crop_region_from_first_image (img : SvcImg)
    (rest rest2 : List SvcImg) (gridCols gridRows : Nat)
    (hnames : rest.map SvcImg.name = rest2.map SvcImg.name)
    (hcanvases : rest.map SvcImg.canvas = rest2.map SvcImg.canvas) :
    coordinatesToUse (img :: rest) =
      img.coordinates.getD ⟨0, 0, 100, 100⟩ ∧
    generateCropGridImage (img :: rest) gridCols gridRows =
      generateCropGridImage (img :: rest2) gridCols gridRows ∧
    cropSplitGenerateImage (img :: rest) gridCols gridRows =
      cropSplitGenerateImage (img :: rest2) gridCols gridRows := by
  have hmap : (img :: rest).map svcToImgObj = (img :: rest2).map svcToImgObj := by
    rw [List.map_cons, List.map_cons,
      map_svcToImgObj_congr rest rest2 hnames hcanvases]
  have hcoord : coordinatesToUse (img :: rest) =
      coordinatesToUse (img :: rest2) := rfl
  refine ⟨rfl, ?_, ?_⟩
  · simp only [generateCropGridImage]
    rw [if_neg (by simp), if_neg (by simp), hmap, hcoord]
  · simp only [cropSplitGenerateImage]
    rw [if_neg (by simp), if_neg (by simp), hmap, hcoord]

/-- C10 closed instance: with a present first-image region the tail's
coordinates are irrelevant — removing them does not change either service's
output. -/
theorem crop_region_from_first_image_witness :
    coordinatesToUse (⟨"a", some ⟨0, 0, 1, 1⟩,
        some ⟨1, 1, [1, 2, 3, 4]⟩⟩ :: sampleSvcTail) =
      (Option.some (CropRegion.mk 0 0 1 1)).getD ⟨0, 0, 100, 100⟩ ∧
    generateCropGridImage (⟨"a", some ⟨0, 0, 1, 1⟩,
        some ⟨1, 1, [1, 2, 3, 4]⟩⟩ :: sampleSvcTail) 2 1 =
      generateCropGridImage (⟨"a", some ⟨0, 0, 1, 1⟩,
        some ⟨1, 1, [1, 2, 3, 4]⟩⟩ :: sampleSvcTailNoCoords) 2 1 ∧
    cropSplitGenerateImage (⟨"a", some ⟨0, 0, 1, 1⟩,
        some ⟨1, 1, [1, 2, 3, 4]⟩⟩ :: sampleSvcTail) 2 1 =
      cropSplitGenerateImage (⟨"a", some ⟨0, 0, 1, 1⟩,
        some ⟨1, 1, [1, 2, 3, 4]⟩⟩ :: sampleSvcTailNoCoords) 2 1 :=
  crop_region_from_first_image ⟨"a", some ⟨0, 0, 1, 1⟩,
    some ⟨1, 1, [1, 2, 3, 4]⟩⟩ sampleSvcTail sampleSvcTailNoCoords 2 1
    (by decide) (by decide)

end Sazan
